import Mathlib

/-!
Formal model of the write-back cache in `cache/cache.go`.

The cache wraps a durable key-value store (pebble).  Keys and values are byte
sequences, modelled as `List Nat`.  The Go `map[string]*CacheEntry` compares
keys by exact byte content, so the table is modelled as an association list
over `Key` with content equality.  Time (`time.Now()`) is modelled by a `Nat`
timestamp passed into each operation.  The durable store is modelled by an
explicit state: an association list of persisted pairs, a set of keys on which
reads fail with a real (non-not-found) error, a set of keys on which writes
fail, and a log of every issued write together with its durability flag
(`true` models `pebble.Sync`).  Store errors carry no payload here; an
operation result records only whether a non-nil error was returned.

All operations are sequential (single-caller) interpretations of the code:
the lock acquisitions in the source serialise the table accesses that the
model performs atomically.
-/

set_option autoImplicit false

namespace PebbleCache

/-- Byte-sequence keys (`[]byte` / the `string` produced by `makeKey`). -/
abbrev Key := List Nat

/-- Byte-sequence values (`[]byte`). -/
abbrev Val := List Nat

/-! ### Association-list primitives modelling the Go map -/

/-- Lookup in an association list; models `c.data[k]` (content equality). -/
def alookup {α : Type} : List (Key × α) → Key → Option α
  | [], _ => none
  | (k', v') :: rest, k => if k = k' then some v' else alookup rest k

/-- Insert/overwrite in an association list; models `c.data[k] = v`. -/
def aset {α : Type} : List (Key × α) → Key → α → List (Key × α)
  | [], k, v => [(k, v)]
  | (k', v') :: rest, k, v =>
    if k = k' then (k, v) :: rest else (k', v') :: aset rest k v

/-- Remove a key from an association list; models `delete(c.data, k)`. -/
def adel {α : Type} : List (Key × α) → Key → List (Key × α)
  | [], _ => []
  | (k', v') :: rest, k =>
    if k = k' then adel rest k else (k', v') :: adel rest k

/-- `makeKey` converts a `[]byte` to a `string` key: a content-preserving
copy.  Keys are compared by content in the model, so this is the identity. -/
def makeKey (k : Key) : Key := k

/-! ### Statistics (`type Statistics struct`) -/

/-- The six counters of `Statistics`. -/
structure Statistics where
  cache_hits : Nat
  cache_misses : Nat
  cache_accesses : Nat
  evictions : Nat
  prefetches : Nat
  additions : Nat
deriving DecidableEq, Repr

/-- `func (s *Statistics) CacheHit()`. -/
def Statistics.CacheHit (s : Statistics) : Statistics :=
  { s with cache_accesses := s.cache_accesses + 1, cache_hits := s.cache_hits + 1 }

/-- `func (s *Statistics) CacheMiss()`. -/
def Statistics.CacheMiss (s : Statistics) : Statistics :=
  { s with cache_accesses := s.cache_accesses + 1, cache_misses := s.cache_misses + 1 }

/-- `func (s *Statistics) CacheEvict()`. -/
def Statistics.CacheEvict (s : Statistics) : Statistics :=
  { s with evictions := s.evictions + 1 }

/-- `func (s *Statistics) CachePrefetch()`. -/
def Statistics.CachePrefetch (s : Statistics) : Statistics :=
  { s with prefetches := s.prefetches + 1 }

/-- `func (s *Statistics) CacheAdd()`. -/
def Statistics.CacheAdd (s : Statistics) : Statistics :=
  { s with additions := s.additions + 1 }

/-- `CreateStatistics` (all counters start at the zero value). -/
def CreateStatistics : Statistics := ⟨0, 0, 0, 0, 0, 0⟩

/-! ### Cache entries (`type CacheEntry struct`) -/

/-- One resident entry: value bytes, size, creation and last-update times. -/
structure CacheEntry where
  value : Val
  size : Nat
  first_inserted : Nat
  last_updated : Nat
deriving DecidableEq, Repr

/-! ### The durable store (pebble, as consumed by the cache) -/

/-- Outcome of a store read: a value, `pebble.ErrNotFound`, or a real error. -/
inductive DbRead where
  | found (v : Val)
  | notFound
  | failed
deriving DecidableEq, Repr

/-- State of the durable store.  `readFail` / `writeFail` list the keys on
which the store returns a real error; `writeLog` records every issued write
as `(key, value, sync)` where `sync = true` models `pebble.Sync`. -/
structure DB where
  data : List (Key × Val)
  readFail : List Key
  writeFail : List Key
  writeLog : List (Key × Val × Bool)
deriving DecidableEq, Repr

/-- `db.Get(key)`: a real error on keys in `readFail`, otherwise the stored
value or `ErrNotFound`. -/
def DB.Get (db : DB) (k : Key) : DbRead :=
  if k ∈ db.readFail then .failed
  else
    match alookup db.data k with
    | some v => .found v
    | none => .notFound

/-- `db.Set(key, value, sync)`: returns (non-nil-error?, new store state).
The attempt is always logged; the data changes only on success. -/
def DB.Set (db : DB) (k : Key) (v : Val) (sync : Bool) : Bool × DB :=
  if k ∈ db.writeFail then
    (true, { db with writeLog := db.writeLog ++ [(k, v, sync)] })
  else
    (false, { db with data := aset db.data k v,
                      writeLog := db.writeLog ++ [(k, v, sync)] })

/-! ### The cache (`type Cache struct`) -/

/-- The bounded in-memory table plus its collaborators.  `capacity` is a Go
`int`, modelled as `Int`. -/
structure Cache where
  data : List (Key × CacheEntry)
  capacity : Int
  stats : Statistics
  db : DB
deriving DecidableEq, Repr

/-- `CreateCache(db, cache_capacity)`. -/
def CreateCache (db : DB) (cache_capacity : Int) : Cache :=
  { data := [], capacity := cache_capacity, stats := CreateStatistics, db := db }

/-- Result of `Cache.Get`: (value, found, non-nil-error?). -/
structure GetOut where
  value : Option Val
  found : Bool
  errored : Bool
deriving DecidableEq, Repr

/-- Result of `Cache.Set`: (placedInCache, non-nil-error?). -/
structure SetOut where
  placedInCache : Bool
  errored : Bool
deriving DecidableEq, Repr

/-- Result of `Cache.Evict`: (evicted, non-nil-error?). -/
structure EvictOut where
  evicted : Bool
  errored : Bool
deriving DecidableEq, Repr

/-- Result of `Cache.Prefetch`: (success count, non-nil-error?). -/
structure PrefetchOut where
  successes : Nat
  errored : Bool
deriving DecidableEq, Repr

/-- `func (c *Cache) Get(key []byte) ([]byte, bool, error)`.
On a table hit: record a hit and return a copy of the stored value.  On a
miss: record a miss, then read the durable store; `ErrNotFound` maps to
(found=false, no error). -/
def Cache.Get (c : Cache) (key : Key) : GetOut × Cache :=
  let k := makeKey key
  match alookup c.data k with
  | some e =>
      (⟨some e.value, true, false⟩, { c with stats := c.stats.CacheHit })
  | none =>
      let c1 := { c with stats := c.stats.CacheMiss }
      match c1.db.Get key with
      | .notFound => (⟨none, false, false⟩, c1)
      | .failed => (⟨none, false, true⟩, c1)
      | .found v => (⟨some v, true, false⟩, c1)

/-- `func (c *Cache) Set(key, value []byte, addToCache bool) (bool, error)`.
Resident key: overwrite in place, record a hit.  Otherwise record a miss and
either insert (admission granted and capacity free) or write through to the
store with `pebble.Sync`. -/
def Cache.Set (c : Cache) (now : Nat) (key value : Key) (addToCache : Bool) :
    SetOut × Cache :=
  let k := makeKey key
  let v := value
  match alookup c.data k with
  | some e =>
      let e' := { e with last_updated := now, size := v.length, value := v }
      (⟨true, false⟩, { c with data := aset c.data k e', stats := c.stats.CacheHit })
  | none =>
      if addToCache = true ∧ (c.data.length : Int) < c.capacity then
        let en : CacheEntry :=
          { value := value, size := v.length, first_inserted := now, last_updated := now }
        (⟨true, false⟩, { c with data := aset c.data k en, stats := c.stats.CacheMiss })
      else
        let r := c.db.Set key value true
        if r.1 then (⟨false, true⟩, { c with db := r.2, stats := c.stats.CacheMiss })
        else (⟨false, false⟩, { c with db := r.2, stats := c.stats.CacheMiss })

/-- `func (c *Cache) Evict(key []byte) (bool, error)`.
Not resident: (false, nil).  Resident: remove from the table, then write the
value to the store with `pebble.Sync`; record an eviction only on success. -/
def Cache.Evict (c : Cache) (key : Key) : EvictOut × Cache :=
  let k := makeKey key
  match alookup c.data k with
  | none => (⟨false, false⟩, c)
  | some e =>
      let c1 := { c with data := adel c.data k }
      let r := c1.db.Set k e.value true
      if r.1 then (⟨false, true⟩, { c1 with db := r.2 })
      else (⟨true, false⟩, { c1 with db := r.2, stats := c1.stats.CacheEvict })

/-- `func (c *Cache) RemainingCapacity() int`. -/
def Cache.RemainingCapacity (c : Cache) : Int :=
  c.capacity - (c.data.length : Int)

/-- The de-duplication loop at the top of `Prefetch`: keeps the first
occurrence of each key, in input order (`seen` set plus `stringKeys` list). -/
def dedupGo (seen : List Key) : List Key → List Key
  | [] => []
  | kb :: rest =>
    if kb ∈ seen then dedupGo seen rest
    else kb :: dedupGo (kb :: seen) rest

/-- The de-duplicated key list `stringKeys` built by `Prefetch`. -/
def dedupKeys (keys : List Key) : List Key := dedupGo [] keys

/-- The per-key loop of `Prefetch` over the de-duplicated keys, carrying the
running success count.  Resident keys count as successes without a store
read; a store `ErrNotFound` is skipped; a real store error returns
immediately; a store hit is re-checked for residency and inserted only when
`RemainingCapacity` is nonzero. -/
def prefetchLoop (now : Nat) : Cache → Nat → List Key → PrefetchOut × Cache
  | c, successes, [] => (⟨successes, false⟩, c)
  | c, successes, k :: rest =>
    match alookup c.data k with
    | some _ => prefetchLoop now c (successes + 1) rest
    | none =>
      match c.db.Get k with
      | .notFound => prefetchLoop now c successes rest
      | .failed => (⟨successes, true⟩, c)
      | .found val =>
        match alookup c.data k with
        | some _ => prefetchLoop now c (successes + 1) rest
        | none =>
          if c.RemainingCapacity = 0 then
            prefetchLoop now c successes rest
          else
            let en : CacheEntry :=
              { value := val, size := val.length, first_inserted := now, last_updated := now }
            prefetchLoop now { c with data := aset c.data k en } (successes + 1) rest

/-- `func (c *Cache) Prefetch(keys [][]byte) (int, error)`. -/
def Cache.Prefetch (c : Cache) (now : Nat) (keys : List Key) : PrefetchOut × Cache :=
  prefetchLoop now c 0 (dedupKeys keys)

/-! ### Operation sequences -/

/-- One public cache operation.  `Close` releases the pebble handle and
`RemainingCapacity` is a pure read; neither touches the table or the
statistics, so both leave the modelled state unchanged. -/
inductive Op where
  | get (key : Key)
  | set (now : Nat) (key value : Key) (addToCache : Bool)
  | evict (key : Key)
  | prefetch (now : Nat) (keys : List Key)
  | remainingCapacity
  | close
deriving DecidableEq, Repr

/-- State transition of one operation (outputs discarded). -/
def applyOp (c : Cache) : Op → Cache
  | .get k => (Cache.Get c k).2
  | .set now k v b => (Cache.Set c now k v b).2
  | .evict k => (Cache.Evict c k).2
  | .prefetch now ks => (Cache.Prefetch c now ks).2
  | .remainingCapacity => c
  | .close => c

/-- Run a finite sequence of operations. -/
def runOps (c : Cache) : List Op → Cache
  | [] => c
  | op :: rest => runOps (applyOp c op) rest

/-! ### Slice-identity model of `Set`

Go byte slices are mutable references into backing arrays.  To settle the
aliasing contract of `Set`, its table manipulation is re-embedded with slice
identity made explicit: a heap of byte buffers, addressed by index, and
entries holding a buffer index instead of immutable bytes.  `append([]byte(nil),
value...)` becomes a fresh allocation holding a copy of the buffer's
contents.  The durable-store write-through branch never touches the table and
is omitted from this view. -/

/-- A heap of byte buffers; a slice is an index into it. -/
structure Heap where
  bufs : List Val
deriving DecidableEq, Repr

/-- Contents of buffer `b`. -/
def Heap.read (h : Heap) (b : Nat) : Val := h.bufs.getD b []

/-- Allocate a fresh buffer holding `v`; returns its index. -/
def Heap.alloc (h : Heap) (v : Val) : Nat × Heap := (h.bufs.length, ⟨h.bufs ++ [v]⟩)

/-- Overwrite the contents of buffer `b` (a caller mutating its slice). -/
def Heap.write (h : Heap) (b : Nat) (v : Val) : Heap := ⟨h.bufs.set b v⟩

/-- A cache entry whose `value` field is a slice (buffer index). -/
structure CacheEntryA where
  value : Nat
  size : Nat
  first_inserted : Nat
  last_updated : Nat
deriving DecidableEq, Repr

/-- The table manipulation of `Set` with slice identity explicit.
`v := append([]byte(nil), value...)` allocates the copy; the overwrite path
stores the copy `v` into the entry (`e.value = v`), while the new-entry path
stores the caller's own slice (`value: value` in the composite literal),
using `len(v)` only for the size field. -/
def SetA (h : Heap) (data : List (Key × CacheEntryA)) (capacity : Int) (now : Nat)
    (key : Key) (value : Nat) (addToCache : Bool) :
    Heap × List (Key × CacheEntryA) × Bool :=
  let a := h.alloc (h.read value)
  let v := a.1
  let h1 := a.2
  match alookup data key with
  | some e =>
    let e' := { e with last_updated := now, size := (h1.read v).length, value := v }
    (h1, aset data key e', true)
  | none =>
    if addToCache = true ∧ (data.length : Int) < capacity then
      let en : CacheEntryA :=
        { value := value, size := (h1.read v).length,
          first_inserted := now, last_updated := now }
      (h1, aset data key en, true)
    else
      (h1, data, false)

/-! ### Association-list lemmas -/

theorem alookup_aset_self {α : Type} (l : List (Key × α)) (k : Key) (v : α) :
    alookup (aset l k v) k = some v := by
  induction l with
  | nil => simp [aset, alookup]
  | cons p rest ih =>
    obtain ⟨k', v'⟩ := p
    by_cases h : k = k'
    · simp [aset, alookup, h]
    · simp [aset, alookup, h, ih]

theorem alookup_aset_ne {α : Type} (l : List (Key × α)) (k k' : Key) (v : α)
    (h : k' ≠ k) : alookup (aset l k v) k' = alookup l k' := by
  induction l with
  | nil => simp [aset, alookup, h]
  | cons p rest ih =>
    obtain ⟨k₀, v₀⟩ := p
    by_cases hk : k = k₀
    · subst hk
      simp [aset, alookup, h]
    · by_cases hk' : k' = k₀
      · simp [aset, alookup, hk, hk']
      · simp [aset, alookup, hk, hk', ih]

theorem length_aset_of_some {α : Type} (l : List (Key × α)) (k : Key) (v e : α)
    (h : alookup l k = some e) : (aset l k v).length = l.length := by
  induction l with
  | nil => simp [alookup] at h
  | cons p rest ih =>
    obtain ⟨k₀, v₀⟩ := p
    by_cases hk : k = k₀
    · simp [aset, hk]
    · simp only [alookup, if_neg hk] at h
      simp [aset, hk, ih h]

theorem length_aset_of_none {α : Type} (l : List (Key × α)) (k : Key) (v : α)
    (h : alookup l k = none) : (aset l k v).length = l.length + 1 := by
  induction l with
  | nil => simp [aset]
  | cons p rest ih =>
    obtain ⟨k₀, v₀⟩ := p
    by_cases hk : k = k₀
    · simp [alookup, hk] at h
    · simp only [alookup, if_neg hk] at h
      simp [aset, hk, ih h]

theorem alookup_adel_self {α : Type} (l : List (Key × α)) (k : Key) :
    alookup (adel l k) k = none := by
  induction l with
  | nil => simp [adel, alookup]
  | cons p rest ih =>
    obtain ⟨k₀, v₀⟩ := p
    by_cases hk : k = k₀
    · subst hk
      simp [adel, ih]
    · simp [adel, alookup, hk, ih]

theorem alookup_adel_ne {α : Type} (l : List (Key × α)) (k k' : Key)
    (h : k' ≠ k) : alookup (adel l k) k' = alookup l k' := by
  induction l with
  | nil => simp [adel]
  | cons p rest ih =>
    obtain ⟨k₀, v₀⟩ := p
    by_cases hk : k = k₀
    · subst hk
      simp [adel, alookup, h, ih]
    · by_cases hk' : k' = k₀
      · simp [adel, alookup, hk, hk']
      · simp [adel, alookup, hk, hk', ih]

theorem length_adel_le {α : Type} (l : List (Key × α)) (k : Key) :
    (adel l k).length ≤ l.length := by
  induction l with
  | nil => simp [adel]
  | cons p rest ih =>
    obtain ⟨k₀, v₀⟩ := p
    by_cases hk : k = k₀
    · simp only [adel, if_pos hk, List.length_cons]
      exact Nat.le_succ_of_le ih
    · simp only [adel, if_neg hk, List.length_cons]
      exact Nat.succ_le_succ ih

/-! ### De-duplication lemmas -/

theorem mem_dedupGo (ks : List Key) (seen : List Key) (x : Key) :
    x ∈ dedupGo seen ks ↔ x ∈ ks ∧ x ∉ seen := by
  induction ks generalizing seen with
  | nil => simp [dedupGo]
  | cons kb rest ih =>
    by_cases h : kb ∈ seen
    · simp only [dedupGo, if_pos h, ih, List.mem_cons]
      constructor
      · rintro ⟨hx, hs⟩
        exact ⟨Or.inr hx, hs⟩
      · rintro ⟨hx | hx, hs⟩
        · exact absurd (hx ▸ h) hs
        · exact ⟨hx, hs⟩
    · simp only [dedupGo, if_neg h, List.mem_cons, ih]
      constructor
      · rintro (rfl | ⟨hx, hs⟩)
        · exact ⟨Or.inl rfl, h⟩
        · simp only [List.mem_cons, not_or] at hs
          exact ⟨Or.inr hx, hs.2⟩
      · rintro ⟨rfl | hx, hs⟩
        · exact Or.inl rfl
        · by_cases hxkb : x = kb
          · exact Or.inl hxkb
          · exact Or.inr ⟨hx, by simp [List.mem_cons, hxkb, hs]⟩

theorem nodup_dedupGo (ks : List Key) (seen : List Key) :
    (dedupGo seen ks).Nodup := by
  induction ks generalizing seen with
  | nil => simp [dedupGo]
  | cons kb rest ih =>
    by_cases h : kb ∈ seen
    · simpa [dedupGo, if_pos h] using ih seen
    · simp only [dedupGo, if_neg h, List.nodup_cons]
      refine ⟨fun hmem => ?_, ih (kb :: seen)⟩
      have := (mem_dedupGo rest (kb :: seen) kb).mp hmem
      simp at this

theorem sublist_dedupGo (ks : List Key) (seen : List Key) :
    (dedupGo seen ks).Sublist ks := by
  induction ks generalizing seen with
  | nil => simp [dedupGo]
  | cons kb rest ih =>
    by_cases h : kb ∈ seen
    · simpa [dedupGo, if_pos h] using (ih seen).trans (List.sublist_cons_self kb rest)
    · simpa [dedupGo, if_neg h] using List.Sublist.cons₂ kb (ih (kb :: seen))

/-! ### Per-operation frame lemmas -/

theorem Get_frame (c : Cache) (k : Key) :
    (Cache.Get c k).2.data = c.data ∧ (Cache.Get c k).2.capacity = c.capacity ∧
    (Cache.Get c k).2.db = c.db := by
  simp only [Cache.Get]
  cases alookup c.data (makeKey k) with
  | some e => simp
  | none => cases DB.Get c.db k <;> simp

theorem Set_capacity_db_stats (c : Cache) (now : Nat) (key value : Key) (b : Bool) :
    (Cache.Set c now key value b).2.capacity = c.capacity ∧
    (Cache.Set c now key value b).2.stats.prefetches = c.stats.prefetches ∧
    (Cache.Set c now key value b).2.stats.additions = c.stats.additions ∧
    (Cache.Set c now key value b).2.stats.evictions = c.stats.evictions := by
  simp only [Cache.Set]
  cases alookup c.data (makeKey key) with
  | some e => simp [Statistics.CacheHit]
  | none =>
    by_cases h : b = true ∧ (c.data.length : Int) < c.capacity
    · simp [h, Statistics.CacheMiss]
    · by_cases h2 : (DB.Set c.db key value true).1 <;>
        simp [h, h2, Statistics.CacheMiss]

theorem Set_length (c : Cache) (now : Nat) (key value : Key) (b : Bool) :
    (Cache.Set c now key value b).2.data.length = c.data.length ∨
    ((Cache.Set c now key value b).2.data.length = c.data.length + 1 ∧
      (c.data.length : Int) < c.capacity) := by
  simp only [Cache.Set]
  cases h : alookup c.data (makeKey key) with
  | some e =>
    left
    simpa using length_aset_of_some c.data (makeKey key) _ _ h
  | none =>
    by_cases hc : b = true ∧ (c.data.length : Int) < c.capacity
    · right
      rw [if_pos hc]
      exact ⟨by simpa using length_aset_of_none c.data (makeKey key) _ h, hc.2⟩
    · left
      by_cases h2 : (DB.Set c.db key value true).1 <;> simp [hc, h2]

theorem Evict_capacity_length (c : Cache) (key : Key) :
    (Cache.Evict c key).2.capacity = c.capacity ∧
    (Cache.Evict c key).2.data.length ≤ c.data.length ∧
    (Cache.Evict c key).2.stats.prefetches = c.stats.prefetches ∧
    (Cache.Evict c key).2.stats.additions = c.stats.additions := by
  simp only [Cache.Evict]
  cases alookup c.data (makeKey key) with
  | none => simp
  | some e =>
    by_cases h2 : (DB.Set { c with data := adel c.data (makeKey key) }.db (makeKey key) e.value true).1 <;>
      simp [h2, Statistics.CacheEvict, length_adel_le]

theorem Get_pref_add (c : Cache) (k : Key) :
    (Cache.Get c k).2.stats.prefetches = c.stats.prefetches ∧
    (Cache.Get c k).2.stats.additions = c.stats.additions := by
  simp only [Cache.Get]
  cases alookup c.data (makeKey k) with
  | some e => simp [Statistics.CacheHit]
  | none => cases DB.Get c.db k <;> simp [Statistics.CacheMiss]

/-! ### Prefetch-loop lemmas -/

theorem prefetchLoop_stats_db_cap (now : Nat) (ks : List Key) :
    ∀ (c : Cache) (s : Nat),
      (prefetchLoop now c s ks).2.stats = c.stats ∧
      (prefetchLoop now c s ks).2.db = c.db ∧
      (prefetchLoop now c s ks).2.capacity = c.capacity := by
  induction ks with
  | nil => intro c s; simp [prefetchLoop]
  | cons k rest ih =>
    intro c s
    simp only [prefetchLoop]
    cases alookup c.data k with
    | some e => exact ih c (s + 1)
    | none =>
      cases DB.Get c.db k with
      | notFound => exact ih c s
      | failed => simp
      | found val =>
        by_cases h4 : c.RemainingCapacity = 0
        · simp only [if_pos h4]
          exact ih c s
        · simp only [if_neg h4]
          exact ih _ (s + 1)

theorem prefetchLoop_le_cap (now : Nat) (ks : List Key) :
    ∀ (c : Cache) (s : Nat), (c.data.length : Int) ≤ c.capacity →
      ((prefetchLoop now c s ks).2.data.length : Int) ≤ (prefetchLoop now c s ks).2.capacity := by
  induction ks with
  | nil => intro c s hle; simpa [prefetchLoop] using hle
  | cons k rest ih =>
    intro c s hle
    simp only [prefetchLoop]
    cases h1 : alookup c.data k with
    | some e => exact ih c (s + 1) hle
    | none =>
      cases h2 : DB.Get c.db k with
      | notFound => exact ih c s hle
      | failed => simpa using hle
      | found val =>
        by_cases h4 : c.RemainingCapacity = 0
        · simp only [if_pos h4]
          exact ih c s hle
        · simp only [if_neg h4]
          apply ih
          simp only [Cache.RemainingCapacity] at h4
          have hlen := length_aset_of_none c.data k
            { value := val, size := val.length, first_inserted := now, last_updated := now } h1
          simp only [hlen]
          push_cast
          omega

theorem prefetchLoop_full (now : Nat) (ks : List Key) :
    ∀ (c : Cache) (s : Nat), c.RemainingCapacity = 0 →
      (prefetchLoop now c s ks).2 = c := by
  induction ks with
  | nil => intro c s _; simp [prefetchLoop]
  | cons k rest ih =>
    intro c s hfull
    simp only [prefetchLoop]
    cases h1 : alookup c.data k with
    | some e => exact ih c (s + 1) hfull
    | none =>
      cases h2 : DB.Get c.db k with
      | notFound => exact ih c s hfull
      | failed => simp
      | found val =>
        simp only [if_pos hfull]
        exact ih c s hfull

theorem prefetchLoop_resident (now : Nat) (ks : List Key) :
    ∀ (c : Cache) (s : Nat) (k0 : Key) (e0 : CacheEntry),
      alookup c.data k0 = some e0 →
      alookup (prefetchLoop now c s ks).2.data k0 = some e0 := by
  induction ks with
  | nil => intro c s k0 e0 h0; simpa [prefetchLoop] using h0
  | cons k rest ih =>
    intro c s k0 e0 h0
    simp only [prefetchLoop]
    cases h1 : alookup c.data k with
    | some e => exact ih c (s + 1) k0 e0 h0
    | none =>
      cases h2 : DB.Get c.db k with
      | notFound => exact ih c s k0 e0 h0
      | failed => simpa using h0
      | found val =>
        by_cases h4 : c.RemainingCapacity = 0
        · simp only [if_pos h4]
          exact ih c s k0 e0 h0
        · simp only [if_neg h4]
          apply ih
          have hne : k0 ≠ k := by
            intro heq
            rw [heq] at h0
            rw [h0] at h1
            exact Option.noConfusion h1
          simpa [alookup_aset_ne _ _ _ _ hne] using h0

/-! ### Whole-operation invariants -/

theorem applyOp_capacity (c : Cache) (op : Op) : (applyOp c op).capacity = c.capacity := by
  cases op with
  | get k => exact (Get_frame c k).2.1
  | set now k v b => exact (Set_capacity_db_stats c now k v b).1
  | evict k => exact (Evict_capacity_length c k).1
  | prefetch now ks => exact (prefetchLoop_stats_db_cap now (dedupKeys ks) c 0).2.2
  | remainingCapacity => rfl
  | close => rfl

theorem applyOp_le_cap (c : Cache) (op : Op) (h : (c.data.length : Int) ≤ c.capacity) :
    ((applyOp c op).data.length : Int) ≤ (applyOp c op).capacity := by
  cases op with
  | get k =>
    show ((Cache.Get c k).2.data.length : Int) ≤ (Cache.Get c k).2.capacity
    rw [(Get_frame c k).1, (Get_frame c k).2.1]
    exact h
  | set now k v b =>
    show ((Cache.Set c now k v b).2.data.length : Int) ≤ (Cache.Set c now k v b).2.capacity
    rw [(Set_capacity_db_stats c now k v b).1]
    rcases Set_length c now k v b with h1 | ⟨h1, h2⟩
    · rw [h1]; exact h
    · rw [h1]; push_cast; omega
  | evict k =>
    show ((Cache.Evict c k).2.data.length : Int) ≤ (Cache.Evict c k).2.capacity
    rw [(Evict_capacity_length c k).1]
    have hlen := (Evict_capacity_length c k).2.1
    have : ((Cache.Evict c k).2.data.length : Int) ≤ (c.data.length : Int) := by
      exact_mod_cast hlen
    exact this.trans h
  | prefetch now ks => exact prefetchLoop_le_cap now (dedupKeys ks) c 0 h
  | remainingCapacity => exact h
  | close => exact h

theorem runOps_capacity (ops : List Op) : ∀ (c : Cache), (runOps c ops).capacity = c.capacity := by
  induction ops with
  | nil => intro c; rfl
  | cons op rest ih =>
    intro c
    show (runOps (applyOp c op) rest).capacity = c.capacity
    rw [ih, applyOp_capacity]

theorem runOps_le_cap (ops : List Op) :
    ∀ (c : Cache), (c.data.length : Int) ≤ c.capacity →
      ((runOps c ops).data.length : Int) ≤ (runOps c ops).capacity := by
  induction ops with
  | nil => intro c h; exact h
  | cons op rest ih =>
    intro c h
    exact ih _ (applyOp_le_cap c op h)

theorem applyOp_pref_add (c : Cache) (op : Op) :
    (applyOp c op).stats.prefetches = c.stats.prefetches ∧
    (applyOp c op).stats.additions = c.stats.additions := by
  cases op with
  | get k => exact Get_pref_add c k
  | set now k v b =>
    exact ⟨(Set_capacity_db_stats c now k v b).2.1, (Set_capacity_db_stats c now k v b).2.2.1⟩
  | evict k =>
    exact ⟨(Evict_capacity_length c k).2.2.1, (Evict_capacity_length c k).2.2.2⟩
  | prefetch now ks =>
    have h := (prefetchLoop_stats_db_cap now (dedupKeys ks) c 0).1
    exact ⟨congrArg Statistics.prefetches h, congrArg Statistics.additions h⟩
  | remainingCapacity => exact ⟨rfl, rfl⟩
  | close => exact ⟨rfl, rfl⟩

/-- Claim C1: starting from a cache constructed with positive capacity, after
any finite sequence of operations the resident entry count is at most the
capacity; and at a full table, a further `Set` never grows the entry count
and a further `Prefetch` leaves the table unchanged (both insert a new entry
only when the table holds strictly fewer than `capacity` entries). -/
theorem C1_capacity_invariant (db : DB) (cap : Int) (ops : List Op) (c : Cache)
    (hpos : 0 < cap) (hc : c = runOps (CreateCache db cap) ops) :
    ((c.data.length : Int) ≤ cap) ∧
    (¬ ((c.data.length : Int) < cap) →
      (∀ (now : Nat) (key value : Key) (b : Bool),
        (Cache.Set c now key value b).2.data.length = c.data.length) ∧
      (∀ (now : Nat) (keys : List Key),
        (Cache.Prefetch c now keys).2.data = c.data)) := by
  subst hc
  have hcap : (runOps (CreateCache db cap) ops).capacity = cap := runOps_capacity ops _
  have hle : ((runOps (CreateCache db cap) ops).data.length : Int) ≤ cap := by
    have h0 : (((CreateCache db cap).data.length : Int)) ≤ (CreateCache db cap).capacity := by
      simp [CreateCache]
      omega
    have := runOps_le_cap ops (CreateCache db cap) h0
    rwa [hcap] at this
  refine ⟨hle, fun hfull => ⟨?_, ?_⟩⟩
  · intro now key value b
    rcases Set_length (runOps (CreateCache db cap) ops) now key value b with h1 | ⟨h1, h2⟩
    · exact h1
    · rw [hcap] at h2
      exact absurd h2 hfull
  · intro now keys
    have hrc : (runOps (CreateCache db cap) ops).RemainingCapacity = 0 := by
      simp only [Cache.RemainingCapacity, hcap]
      omega
    have hfix := prefetchLoop_full now (dedupKeys keys) (runOps (CreateCache db cap) ops) 0 hrc
    exact congrArg Cache.data hfix

/-- Witness for C1 at capacity 1 with two inserting `Set` calls and a
`Prefetch` of a store-only key. -/
theorem C1_capacity_invariant_witness :
    (0 : Int) < 1 ∧
    ((runOps (CreateCache ⟨[([9], [9])], [], [], []⟩ 1)
        [Op.set 0 [0] [1] true, Op.set 1 [2] [3] true,
         Op.prefetch 2 [[9]]]).data.length : Int) ≤ 1 :=
  ⟨by decide,
    (C1_capacity_invariant ⟨[([9], [9])], [], [], []⟩ 1
      [Op.set 0 [0] [1] true, Op.set 1 [2] [3] true, Op.prefetch 2 [[9]]]
      _ (by decide) rfl).1⟩

/-- Claim C10: no public operation ever records a prefetch or an addition, so
the `prefetches` and `additions` counters stay zero over every operation
sequence of a cache's lifetime. -/
theorem C10_prefetch_addition_counters_zero (db : DB) (cap : Int) (ops : List Op) :
    (runOps (CreateCache db cap) ops).stats.prefetches = 0 ∧
    (runOps (CreateCache db cap) ops).stats.additions = 0 := by
  suffices key : ∀ (ops' : List Op) (c : Cache),
      c.stats.prefetches = 0 ∧ c.stats.additions = 0 →
      (runOps c ops').stats.prefetches = 0 ∧ (runOps c ops').stats.additions = 0 by
    exact key ops _ ⟨rfl, rfl⟩
  intro ops'
  induction ops' with
  | nil => intro c h; exact h
  | cons op rest ih =>
    intro c h
    exact ih _ ⟨(applyOp_pref_add c op).1.trans h.1, (applyOp_pref_add c op).2.trans h.2⟩

/-- Claim C2: `Set(K, V, true)` with free capacity admits V to the table;
`Evict(K)` then removes it and persists it; and `Get(K)` afterwards returns V
with found=true and no error, served from the durable store (the key is no
longer table-resident). -/
theorem C2_roundtrip_through_eviction (c : Cache) (now1 : Nat) (key v : Key)
    (hres : alookup c.data key = none)
    (hcap : (c.data.length : Int) < c.capacity)
    (hwf : key ∉ c.db.writeFail)
    (hrf : key ∉ c.db.readFail) :
    (Cache.Set c now1 key v true).1 = ⟨true, false⟩ ∧
    (Cache.Evict (Cache.Set c now1 key v true).2 key).1 = ⟨true, false⟩ ∧
    alookup (Cache.Evict (Cache.Set c now1 key v true).2 key).2.data key = none ∧
    (Cache.Get (Cache.Evict (Cache.Set c now1 key v true).2 key).2 key).1 =
      ⟨some v, true, false⟩ := by
  have h1 : Cache.Set c now1 key v true =
      (⟨true, false⟩,
       { c with data := aset c.data key ⟨v, v.length, now1, now1⟩,
                stats := c.stats.CacheMiss }) := by
    simp only [Cache.Set, makeKey, hres]
    rw [if_pos ⟨trivial, hcap⟩]
  have h2 : Cache.Evict (Cache.Set c now1 key v true).2 key =
      (⟨true, false⟩,
       { c with
         data := adel (aset c.data key ⟨v, v.length, now1, now1⟩) key,
         stats := (c.stats.CacheMiss).CacheEvict,
         db := { c.db with data := aset c.db.data key v,
                           writeLog := c.db.writeLog ++ [(key, v, true)] } }) := by
    rw [h1]
    simp only [Cache.Evict, makeKey, alookup_aset_self, DB.Set]
    rw [if_neg hwf]
    simp
  refine ⟨by rw [h1], by rw [h2], ?_, ?_⟩
  · rw [h2]
    exact alookup_adel_self _ _
  · rw [h2]
    simp only [Cache.Get, makeKey, alookup_adel_self, DB.Get]
    rw [if_neg hrf]
    simp [alookup_aset_self]

/-- Witness for C2: key `[5]` with value `[7, 8]` on an initially empty cache
of capacity 1 over a healthy empty store. -/
theorem C2_roundtrip_through_eviction_witness :
    alookup (CreateCache ⟨[], [], [], []⟩ 1).data [5] = none ∧
    (((CreateCache ⟨[], [], [], []⟩ 1).data.length : Int) <
      (CreateCache ⟨[], [], [], []⟩ 1).capacity) ∧
    (Cache.Get (Cache.Evict (Cache.Set (CreateCache ⟨[], [], [], []⟩ 1) 0 [5] [7, 8] true).2
        [5]).2 [5]).1 = ⟨some [7, 8], true, false⟩ :=
  ⟨by decide, by decide,
    (C2_roundtrip_through_eviction (CreateCache ⟨[], [], [], []⟩ 1) 0 [5] [7, 8]
      (by decide) (by decide) (by decide) (by decide)).2.2.2⟩

/-- Claim C3: `Evict` on a non-resident key is a (false, nil) no-op; on a
resident key it removes the entry, issues a durability-synchronous store
write of its value, and records an eviction, returning (true, nil) on
success; on a store-write failure it returns (false, error) with the entry
still removed (no rollback); a second `Evict` right after a successful one
returns (false, nil). -/
theorem C3_evict_contract (c : Cache) (key : Key) :
    (alookup c.data key = none → Cache.Evict c key = (⟨false, false⟩, c)) ∧
    (∀ e : CacheEntry, alookup c.data key = some e →
      alookup (Cache.Evict c key).2.data key = none ∧
      (Cache.Evict c key).2.db.writeLog = c.db.writeLog ++ [(key, e.value, true)] ∧
      (key ∉ c.db.writeFail →
        (Cache.Evict c key).1 = ⟨true, false⟩ ∧
        (Cache.Evict c key).2.stats.evictions = c.stats.evictions + 1 ∧
        Cache.Evict (Cache.Evict c key).2 key = (⟨false, false⟩, (Cache.Evict c key).2)) ∧
      (key ∈ c.db.writeFail →
        (Cache.Evict c key).1 = ⟨false, true⟩ ∧
        (Cache.Evict c key).2.stats = c.stats)) := by
  constructor
  · intro h
    simp only [Cache.Evict, makeKey, h]
  · intro e he
    by_cases hwf : key ∈ c.db.writeFail
    · have hev : Cache.Evict c key =
          (⟨false, true⟩,
           { c with
             data := adel c.data key,
             db := { c.db with
                     writeLog := c.db.writeLog ++ [(key, e.value, true)] } }) := by
        simp only [Cache.Evict, makeKey, he, DB.Set]
        rw [if_pos hwf]
        simp
      rw [hev]
      exact ⟨alookup_adel_self _ _, rfl, fun h' => absurd hwf h', fun _ => ⟨rfl, rfl⟩⟩
    · have hev : Cache.Evict c key =
          (⟨true, false⟩,
           { c with
             data := adel c.data key,
             stats := c.stats.CacheEvict,
             db := { c.db with
                     data := aset c.db.data key e.value,
                     writeLog := c.db.writeLog ++ [(key, e.value, true)] } }) := by
        simp only [Cache.Evict, makeKey, he, DB.Set]
        rw [if_neg hwf]
        simp
      rw [hev]
      refine ⟨alookup_adel_self _ _, rfl, fun _ => ⟨rfl, rfl, ?_⟩, fun h' => absurd h' hwf⟩
      simp only [Cache.Evict, makeKey, alookup_adel_self]

/-- Witness for C3 on a cache holding the single entry `[1] ↦ [2]`. -/
theorem C3_evict_contract_witness :
    (Cache.Evict
        { data := [([1], ⟨[2], 1, 0, 0⟩)], capacity := 1,
          stats := CreateStatistics, db := ⟨[], [], [], []⟩ } [1]).1 = ⟨true, false⟩ ∧
    (Cache.Evict
        { data := [([1], ⟨[2], 1, 0, 0⟩)], capacity := 1,
          stats := CreateStatistics, db := ⟨[], [], [], []⟩ } [1]).2.stats.evictions =
      ({ data := [([1], ⟨[2], 1, 0, 0⟩)], capacity := 1,
         stats := CreateStatistics, db := ⟨[], [], [], []⟩ } : Cache).stats.evictions + 1 ∧
    Cache.Evict
        (Cache.Evict
          { data := [([1], ⟨[2], 1, 0, 0⟩)], capacity := 1,
            stats := CreateStatistics, db := ⟨[], [], [], []⟩ } [1]).2 [1] =
      (⟨false, false⟩,
        (Cache.Evict
          { data := [([1], ⟨[2], 1, 0, 0⟩)], capacity := 1,
            stats := CreateStatistics, db := ⟨[], [], [], []⟩ } [1]).2) :=
  ((C3_evict_contract
      { data := [([1], ⟨[2], 1, 0, 0⟩)], capacity := 1,
        stats := CreateStatistics, db := ⟨[], [], [], []⟩ } [1]).2
    ⟨[2], 1, 0, 0⟩ (by decide)).2.2.1 (by decide)

/-- Claim C4: a `Set` on a non-resident key with admission declined or the
table full leaves the table unchanged, issues a durability-synchronous
write-through of `(key, value)`, and returns (false, nil) on success or
(false, error) on store failure; after a successful write-through, `Get`
serves the value from the store. -/
theorem C4_set_writethrough (c : Cache) (now : Nat) (key value : Key) (addToCache : Bool)
    (h1 : alookup c.data key = none)
    (h2 : addToCache = false ∨ ¬ ((c.data.length : Int) < c.capacity)) :
    (Cache.Set c now key value addToCache).2.data = c.data ∧
    (Cache.Set c now key value addToCache).1.placedInCache = false ∧
    (Cache.Set c now key value addToCache).2.db.writeLog =
      c.db.writeLog ++ [(key, value, true)] ∧
    (key ∉ c.db.writeFail →
      (Cache.Set c now key value addToCache).1 = ⟨false, false⟩ ∧
      alookup (Cache.Set c now key value addToCache).2.db.data key = some value ∧
      (key ∉ c.db.readFail →
        (Cache.Get (Cache.Set c now key value addToCache).2 key).1 =
          ⟨some value, true, false⟩)) ∧
    (key ∈ c.db.writeFail →
      (Cache.Set c now key value addToCache).1 = ⟨false, true⟩ ∧
      (Cache.Set c now key value addToCache).2.db.data = c.db.data) := by
  have hguard : ¬ (addToCache = true ∧ (c.data.length : Int) < c.capacity) := by
    rcases h2 with h2 | h2
    · rintro ⟨ha, _⟩
      rw [h2] at ha
      exact Bool.noConfusion ha
    · rintro ⟨_, hb⟩
      exact h2 hb
  by_cases hwf : key ∈ c.db.writeFail
  · have hset : Cache.Set c now key value addToCache =
        (⟨false, true⟩,
         { c with
           stats := c.stats.CacheMiss,
           db := { c.db with
                   writeLog := c.db.writeLog ++ [(key, value, true)] } }) := by
      simp only [Cache.Set, makeKey, h1]
      rw [if_neg hguard]
      simp only [DB.Set]
      rw [if_pos hwf]
      simp
    rw [hset]
    exact ⟨rfl, rfl, rfl, fun h' => absurd hwf h', fun _ => ⟨rfl, rfl⟩⟩
  · have hset : Cache.Set c now key value addToCache =
        (⟨false, false⟩,
         { c with
           stats := c.stats.CacheMiss,
           db := { c.db with
                   data := aset c.db.data key value,
                   writeLog := c.db.writeLog ++ [(key, value, true)] } }) := by
      simp only [Cache.Set, makeKey, h1]
      rw [if_neg hguard]
      simp only [DB.Set]
      rw [if_neg hwf]
      simp
    rw [hset]
    refine ⟨rfl, rfl, rfl,
      fun _ => ⟨rfl, alookup_aset_self _ _ _, fun hrf => ?_⟩,
      fun h' => absurd h' hwf⟩
    simp only [Cache.Get, makeKey, h1, DB.Get]
    rw [if_neg hrf]
    simp [alookup_aset_self]

/-- Witness for C4: capacity-0 cache, so `Set([3], [4], true)` is a
write-through; `Get` then serves `[4]` from the store. -/
theorem C4_set_writethrough_witness :
    (Cache.Set (CreateCache ⟨[], [], [], []⟩ 0) 0 [3] [4] true).2.data =
      (CreateCache ⟨[], [], [], []⟩ 0).data ∧
    (Cache.Get (Cache.Set (CreateCache ⟨[], [], [], []⟩ 0) 0 [3] [4] true).2 [3]).1 =
      ⟨some [4], true, false⟩ :=
  have h := C4_set_writethrough (CreateCache ⟨[], [], [], []⟩ 0) 0 [3] [4] true
    (by decide) (Or.inr (by decide))
  ⟨h.1, (h.2.2.2.1 (by decide)).2.2 (by decide)⟩

/-- Claim C6: a `Set` on a resident key overwrites value and size in place,
refreshes `last_updated`, keeps `first_inserted`, records a hit, evicts
nothing, touches no other key and not the store, and returns (true, nil),
regardless of `addToCache`. -/
theorem C6_set_overwrite (c : Cache) (now : Nat) (key value : Key) (addToCache : Bool)
    (e : CacheEntry) (h : alookup c.data key = some e) :
    (Cache.Set c now key value addToCache).1 = ⟨true, false⟩ ∧
    alookup (Cache.Set c now key value addToCache).2.data key =
      some ⟨value, value.length, e.first_inserted, now⟩ ∧
    (∀ k' : Key, k' ≠ key →
      alookup (Cache.Set c now key value addToCache).2.data k' = alookup c.data k') ∧
    (Cache.Set c now key value addToCache).2.data.length = c.data.length ∧
    (Cache.Set c now key value addToCache).2.stats.cache_hits = c.stats.cache_hits + 1 ∧
    (Cache.Set c now key value addToCache).2.db = c.db := by
  have hset : Cache.Set c now key value addToCache =
      (⟨true, false⟩,
       { c with
         data := aset c.data key ⟨value, value.length, e.first_inserted, now⟩,
         stats := c.stats.CacheHit }) := by
    simp only [Cache.Set, makeKey, h]
  rw [hset]
  exact ⟨rfl, alookup_aset_self _ _ _,
    fun k' hk' => alookup_aset_ne _ _ _ _ hk',
    length_aset_of_some _ _ _ _ h, rfl, rfl⟩

/-- Witness for C6: overwriting `[1] ↦ [2]` (inserted at time 0) with `[7, 7]`
at time 5 keeps `first_inserted = 0` and refreshes `last_updated = 5`. -/
theorem C6_set_overwrite_witness :
    (Cache.Set
        { data := [([1], ⟨[2], 1, 0, 0⟩)], capacity := 1,
          stats := CreateStatistics, db := ⟨[], [], [], []⟩ } 5 [1] [7, 7] false).1 =
      ⟨true, false⟩ ∧
    alookup (Cache.Set
        { data := [([1], ⟨[2], 1, 0, 0⟩)], capacity := 1,
          stats := CreateStatistics, db := ⟨[], [], [], []⟩ } 5 [1] [7, 7] false).2.data [1] =
      some ⟨[7, 7], 2, 0, 5⟩ :=
  have h := C6_set_overwrite
      { data := [([1], ⟨[2], 1, 0, 0⟩)], capacity := 1,
        stats := CreateStatistics, db := ⟨[], [], [], []⟩ } 5 [1] [7, 7] false
      ⟨[2], 1, 0, 0⟩ (by decide)
  ⟨h.1, h.2.1⟩

/-- Claim C7: `Prefetch` removes nothing — every entry resident before the
call is still resident (unchanged) after it — and with zero remaining
capacity a store-hit key is skipped: no error, not counted as a success, and
the cache is left exactly as it was. -/
theorem C7_prefetch_non_evicting (c : Cache) (now : Nat) (ks : List Key) :
    (∀ (k0 : Key) (e0 : CacheEntry), alookup c.data k0 = some e0 →
      alookup (Cache.Prefetch c now ks).2.data k0 = some e0) ∧
    (∀ (k : Key) (v : Val), c.RemainingCapacity = 0 →
      alookup c.data k = none → DB.Get c.db k = .found v →
      Cache.Prefetch c now [k] = (⟨0, false⟩, c)) := by
  constructor
  · intro k0 e0 h0
    exact prefetchLoop_resident now (dedupKeys ks) c 0 k0 e0 h0
  · intro k v hfull hk hdb
    have hdedup : dedupKeys [k] = [k] := by simp [dedupKeys, dedupGo]
    simp only [Cache.Prefetch, hdedup, prefetchLoop, hk, hdb]
    rw [if_pos hfull]

/-- Witness for C7: a full capacity-1 cache skips the store-resident key
`[2]` without error and without change. -/
theorem C7_prefetch_non_evicting_witness :
    Cache.Prefetch
        { data := [([1], ⟨[3], 1, 0, 0⟩)], capacity := 1,
          stats := CreateStatistics, db := ⟨[([2], [9])], [], [], []⟩ } 0 [[2]] =
      (⟨0, false⟩,
        { data := [([1], ⟨[3], 1, 0, 0⟩)], capacity := 1,
          stats := CreateStatistics, db := ⟨[([2], [9])], [], [], []⟩ }) :=
  (C7_prefetch_non_evicting
      { data := [([1], ⟨[3], 1, 0, 0⟩)], capacity := 1,
        stats := CreateStatistics, db := ⟨[([2], [9])], [], [], []⟩ } 0 [[2]]).2
    [2] [9] (by decide) (by decide) (by decide)

/-- Claim C8: `Prefetch` de-duplicates its input by content keeping
first-occurrence order (the de-duplicated list is a duplicate-free
subsequence with the same members); a resident key is one success with no
store dependence; a store miss is no success and no error; an admitted
store hit is one success; `Prefetch([K1, K1, K2])` with K1 resident and K2
store-only under free capacity counts 2; a real store error returns at once
with the successes accumulated so far and the error. -/
theorem C8_prefetch_dedup_and_counting (c : Cache) (now : Nat) (ks : List Key) :
    ((dedupKeys ks).Nodup ∧ (dedupKeys ks).Sublist ks ∧
      (∀ x : Key, x ∈ dedupKeys ks ↔ x ∈ ks)) ∧
    (∀ (k : Key) (e : CacheEntry), alookup c.data k = some e →
      Cache.Prefetch c now [k] = (⟨1, false⟩, c) ∧
      (∀ db' : DB, Cache.Prefetch { c with db := db' } now [k] =
        (⟨1, false⟩, { c with db := db' }))) ∧
    (∀ k : Key, alookup c.data k = none → DB.Get c.db k = .notFound →
      Cache.Prefetch c now [k] = (⟨0, false⟩, c)) ∧
    (∀ (k : Key) (v : Val), alookup c.data k = none → DB.Get c.db k = .found v →
      c.RemainingCapacity ≠ 0 →
      Cache.Prefetch c now [k] =
        (⟨1, false⟩, { c with data := aset c.data k ⟨v, v.length, now, now⟩ })) ∧
    (∀ (k1 k2 : Key) (e : CacheEntry) (v : Val),
      alookup c.data k1 = some e → alookup c.data k2 = none →
      DB.Get c.db k2 = .found v → c.RemainingCapacity ≠ 0 →
      (Cache.Prefetch c now [k1, k1, k2]).1 = ⟨2, false⟩) ∧
    (∀ (k1 k2 : Key) (e : CacheEntry),
      alookup c.data k1 = some e → alookup c.data k2 = none →
      DB.Get c.db k2 = .failed →
      Cache.Prefetch c now [k1, k2] = (⟨1, true⟩, c)) := by
  refine ⟨⟨nodup_dedupGo ks [], sublist_dedupGo ks [],
      fun x => by simpa using mem_dedupGo ks [] x⟩, ?_, ?_, ?_, ?_, ?_⟩
  · intro k e h
    have hdedup : dedupKeys [k] = [k] := by simp [dedupKeys, dedupGo]
    constructor
    · simp only [Cache.Prefetch, hdedup, prefetchLoop, h]
    · intro db'
      simp only [Cache.Prefetch, hdedup, prefetchLoop, h]
  · intro k hk hdb
    have hdedup : dedupKeys [k] = [k] := by simp [dedupKeys, dedupGo]
    simp only [Cache.Prefetch, hdedup, prefetchLoop, hk, hdb]
  · intro k v hk hdb hcap
    have hdedup : dedupKeys [k] = [k] := by simp [dedupKeys, dedupGo]
    simp only [Cache.Prefetch, hdedup, prefetchLoop, hk, hdb]
    rw [if_neg hcap]
  · intro k1 k2 e v h1 h2 h3 h4
    have hne : k2 ≠ k1 := by
      intro heq
      rw [heq, h1] at h2
      exact Option.noConfusion h2
    have hdedup : dedupKeys [k1, k1, k2] = [k1, k2] := by
      simp [dedupKeys, dedupGo, hne]
    unfold Cache.Prefetch
    rw [hdedup]
    simp only [prefetchLoop, h1, h2, h3]
    rw [if_neg h4]
  · intro k1 k2 e h1 h2 h3
    have hne : k2 ≠ k1 := by
      intro heq
      rw [heq, h1] at h2
      exact Option.noConfusion h2
    have hdedup : dedupKeys [k1, k2] = [k1, k2] := by
      simp [dedupKeys, dedupGo, hne]
    unfold Cache.Prefetch
    rw [hdedup]
    simp [prefetchLoop, h1, h2, h3]

/-- Witness for C8: `Prefetch([[1], [1], [2]])` on a capacity-2 cache with
`[1]` resident and `[2]` store-only counts 2 successes. -/
theorem C8_prefetch_dedup_and_counting_witness :
    (Cache.Prefetch
        { data := [([1], ⟨[3], 1, 0, 0⟩)], capacity := 2,
          stats := CreateStatistics, db := ⟨[([2], [5])], [], [], []⟩ } 0
        [[1], [1], [2]]).1 = ⟨2, false⟩ :=
  (C8_prefetch_dedup_and_counting
      { data := [([1], ⟨[3], 1, 0, 0⟩)], capacity := 2,
        stats := CreateStatistics, db := ⟨[([2], [5])], [], [], []⟩ } 0
      [[1], [1], [2]]).2.2.2.2.1
    [1] [2] ⟨[3], 1, 0, 0⟩ [5] (by decide) (by decide) (by decide) (by decide)

/-- Counterexample to C9 as stated: on a fresh cache over an empty store, a
missing `Get` does increment the miss counter by one, but the combined
accesses counter changes too, so "no other statistics change" is false. -/
theorem C9_counterexample_accesses_also_change :
    (Cache.Get (CreateCache ⟨[], [], [], []⟩ 2) [0]).2.stats.cache_misses =
      (CreateCache ⟨[], [], [], []⟩ 2).stats.cache_misses + 1 ∧
    (Cache.Get (CreateCache ⟨[], [], [], []⟩ 2) [0]).2.stats.cache_accesses ≠
      (CreateCache ⟨[], [], [], []⟩ 2).stats.cache_accesses := by decide

/-- Claim C9 (amended): for a key absent from table and store, `Get` returns
found=false with no error, inserts nothing, and increments exactly the miss
counter and the combined accesses counter by one each, leaving the other four
counters and the store untouched. -/
theorem C9_get_miss_amended (c : Cache) (key : Key)
    (h1 : alookup c.data key = none) (h2 : DB.Get c.db key = .notFound) :
    (Cache.Get c key).1 = ⟨none, false, false⟩ ∧
    (Cache.Get c key).2.data = c.data ∧
    (Cache.Get c key).2.stats.cache_misses = c.stats.cache_misses + 1 ∧
    (Cache.Get c key).2.stats.cache_accesses = c.stats.cache_accesses + 1 ∧
    (Cache.Get c key).2.stats.cache_hits = c.stats.cache_hits ∧
    (Cache.Get c key).2.stats.evictions = c.stats.evictions ∧
    (Cache.Get c key).2.stats.prefetches = c.stats.prefetches ∧
    (Cache.Get c key).2.stats.additions = c.stats.additions ∧
    (Cache.Get c key).2.db = c.db := by
  have hget : Cache.Get c key =
      (⟨none, false, false⟩, { c with stats := c.stats.CacheMiss }) := by
    simp only [Cache.Get, makeKey, h1, h2]
  rw [hget]
  exact ⟨rfl, rfl, rfl, rfl, rfl, rfl, rfl, rfl, rfl⟩

/-- Witness for the amended C9 on a fresh capacity-2 cache and key `[0]`. -/
theorem C9_get_miss_amended_witness :
    (Cache.Get (CreateCache ⟨[], [], [], []⟩ 2) [0]).1 = ⟨none, false, false⟩ ∧
    (Cache.Get (CreateCache ⟨[], [], [], []⟩ 2) [0]).2.data =
      (CreateCache ⟨[], [], [], []⟩ 2).data ∧
    (Cache.Get (CreateCache ⟨[], [], [], []⟩ 2) [0]).2.stats.cache_misses =
      (CreateCache ⟨[], [], [], []⟩ 2).stats.cache_misses + 1 :=
  have h := C9_get_miss_amended (CreateCache ⟨[], [], [], []⟩ 2) [0]
    (by decide) (by decide)
  ⟨h.1, h.2.1, h.2.2.1⟩

/-- Claim C5 fails on `Set`'s new-entry insert path.  Caller buffer 0 holds
`[1, 2]`; inserting it into an empty capacity-1 cache stores buffer 0 itself
in the entry — not the fresh copy, buffer 1, that the code allocates and
whose length it uses for the size field.  When the caller then writes `[9]`
into its buffer, the value seen through the entry's slice changes to `[9]`,
while the unused copy still holds `[1, 2]`. -/
theorem C5_set_insert_aliases_caller :
    (SetA ⟨[[1, 2]]⟩ [] 1 0 [5] 0 true).2.1 = [([5], ⟨0, 2, 0, 0⟩)] ∧
    (SetA ⟨[[1, 2]]⟩ [] 1 0 [5] 0 true).1.read 0 = [1, 2] ∧
    (((SetA ⟨[[1, 2]]⟩ [] 1 0 [5] 0 true).1.write 0 [9]).read 0 = [9]) ∧
    (((SetA ⟨[[1, 2]]⟩ [] 1 0 [5] 0 true).1.write 0 [9]).read 1 = [1, 2]) := by
  decide

end PebbleCache
